import Mathlib

/-!
Verification of the poker-simulation core (`poker_sim` Python package).

Shallow embedding of:
* `hand_eval.py`   — 5/7-card hand classifier and hand comparison;
* `types.py`       — `SimResult` aggregate with rate accessors;
* `monte_carlo.py` — `run_monte_carlo` Monte Carlo equity simulator;
* `live_analysis.py` — `hand_distribution_and_win` distribution sampler;
* `equity.py`      — `equity_at_each_street`, `describe_hand`,
  `get_potential_draws`, `possible_hands_that_beat`.

Cards are integers `0–51`; `rank = card % 13` (0 = two … 12 = ace) and
`suit = card / 13`.  Machine integers are modelled as `Nat`/`Int` (Python
integers are unbounded, so no wrap-around is involved); Python floats are
modelled as exact rationals `ℚ`; raised exceptions / returned error dicts
are modelled as `Except String`.

The RNG (`random.Random(seed)` / `rng.shuffle`) is Python standard library
code, not part of the repository; the simulators are therefore
parameterised by a shuffle oracle `shuf : Nat → List Nat → List Nat`
giving the shuffled deck of each trial, and a concrete deterministic
instance of that oracle (modelled from the spec) is supplied for the
seeded entry points.
-/

set_option maxRecDepth 10000

namespace PokerSim

/-- `hand_eval.py` line 11: hand-category codes, weakest to strongest. -/
def HIGH_CARD : Nat := 0

def ONE_PAIR : Nat := 1

def TWO_PAIR : Nat := 2

def THREE_KIND : Nat := 3

def STRAIGHT : Nat := 4

def FLUSH : Nat := 5

def FULL_HOUSE : Nat := 6

def FOUR_KIND : Nat := 7

def STRAIGHT_FLUSH : Nat := 8

/-- `hand_eval.rank`: `card % 13`. -/
def rank (c : Nat) : Nat := c % 13

/-- `hand_eval.suit`: `card // 13`. -/
def suit (c : Nat) : Nat := c / 13

/-- The ranks `{(high - k) % 13 | k < 5}` of a straight whose high card is
`high`, with Python's signed `%` semantics (`(3 - 4) % 13 = 12`). -/
def windowRanks (high : Nat) : List Nat :=
  (List.range 5).map (fun k => (((high : Int) - (k : Int)) % 13).toNat)

/-- `hand_eval._evaluate_5.has_straight`: first `high` in `12,…,3` whose
5-rank window is contained in the rank set, else the explicit wheel check
(`{12,0,1,2,3}`, high card `3`), else `none`. -/
def hasStraight (ranks : List Nat) : Option Nat :=
  match [12, 11, 10, 9, 8, 7, 6, 5, 4, 3].find?
      (fun h => (windowRanks h).all (fun x => decide (x ∈ ranks))) with
  | some h => some h
  | none =>
    if [12, 0, 1, 2, 3].all (fun x => decide (x ∈ ranks)) then some 3 else none

/-- `sorted(rank_counts.items(), key=lambda x: (-x[1], -x[0]))`: the
`(rank, count)` pairs of the rank multiset, count descending then rank
descending.  `Counter` iteration is first-occurrence order (`dedup`), and
Python's `sorted` is a stable sort, hence `insertionSort`. -/
def countGroups (ranks : List Nat) : List (Nat × Nat) :=
  List.insertionSort (fun a b => b.2 < a.2 ∨ (a.2 = b.2 ∧ b.1 ≤ a.1))
    (ranks.dedup.map (fun r => (r, ranks.count r)))

/-- `sorted(set(ranks), reverse=True)`. -/
def uniqueRanksDesc (ranks : List Nat) : List Nat :=
  List.insertionSort (fun a b => b ≤ a) ranks.dedup

/-- `len(set(suits_list)) == 1`. -/
def isFlushOf (cards : List Nat) : Bool :=
  (cards.map suit).dedup.length == 1

/-- `count_groups[0][1]` (count of the largest rank group; default pair for
the empty case, unreachable on 5 cards). -/
def cg0count (cards : List Nat) : Nat :=
  ((countGroups (cards.map rank)).headD (0, 0)).2

/-- `count_groups[1][1]` (only consulted after a `count_groups[0][1]`
test succeeded, so the default is never hit on real hands). -/
def cg1count (cards : List Nat) : Nat :=
  ((countGroups (cards.map rank)).getD 1 (0, 0)).2

/-- `tuple(r for r, _ in count_groups)`: the multiple-based tiebreaker. -/
def groupRanks (cards : List Nat) : List Nat :=
  (countGroups (cards.map rank)).map Prod.fst

/-- `hand_eval._evaluate_5` (category precedence cascade).  The source's
5-card length guard (`raise ValueError`) is statically satisfied at every
call site modelled here; the unused local variables `tiebreaker` and
`kickers` of the source are omitted. -/
def evaluate5 (cards : List Nat) : Nat × List Nat :=
  if isFlushOf cards && (hasStraight (cards.map rank)).isSome then
    (STRAIGHT_FLUSH, [(hasStraight (cards.map rank)).getD 0])
  else if cg0count cards = 4 then (FOUR_KIND, groupRanks cards)
  else if cg0count cards = 3 ∧ 2 ≤ cg1count cards then (FULL_HOUSE, groupRanks cards)
  else if isFlushOf cards then (FLUSH, (uniqueRanksDesc (cards.map rank)).take 5)
  else if (hasStraight (cards.map rank)).isSome then
    (STRAIGHT, [(hasStraight (cards.map rank)).getD 0])
  else if cg0count cards = 3 then (THREE_KIND, groupRanks cards)
  else if cg0count cards = 2 ∧ cg1count cards = 2 then (TWO_PAIR, groupRanks cards)
  else if cg0count cards = 2 then (ONE_PAIR, groupRanks cards)
  else (HIGH_CARD, (uniqueRanksDesc (cards.map rank)).take 5)

/-- Python's `<` on tuples of ints (lexicographic, shorter prefix first). -/
def tupLt : List Nat → List Nat → Bool
  | _, [] => false
  | [], _ :: _ => true
  | a :: as, b :: bs => decide (a < b) || (a == b && tupLt as bs)

/-- Python's `<` on `(hand_type, tiebreaker)` pairs. -/
def handLt (x y : Nat × List Nat) : Bool :=
  decide (x.1 < y.1) || (x.1 == y.1 && tupLt x.2 y.2)

/-- The `best`-accumulating loop of `evaluate_7` / `describe_hand`
(`if best is None or key > best: best = key`). -/
def bestHandOpt : List (Nat × List Nat) → Option (Nat × List Nat)
  | [] => none
  | v :: vs => some (vs.foldl (fun b k => if handLt b k then k else b) v)

/-- `hand_eval.evaluate_7`: maximum classification over all 5-card subsets
(the source's 7-card length guard is statically satisfied at the call
sites modelled here, where the default is unreachable). -/
def evaluate7 (cards : List Nat) : Nat × List Nat :=
  (bestHandOpt ((cards.sublistsLen 5).map evaluate5)).getD (0, [])

/-- `hand_eval.compare_hands`. -/
def compareHands (hand1 hand2 : List Nat) : Int :=
  if handLt (evaluate7 hand2) (evaluate7 hand1) then 1
  else if handLt (evaluate7 hand1) (evaluate7 hand2) then -1
  else 0

/-- `types.SimResult` (raw counters; the float rate accessors are the
functions below). -/
structure SimResult where
  wins : Nat
  ties : Nat
  losses : Nat
  total : Nat
deriving DecidableEq

/-- The `SimResult.__init__` defaulting quirk: `losses if losses else
(total - wins - ties)` (Python `0` is falsy). -/
def SimResult.make (wins ties total losses : Nat) : SimResult :=
  { wins := wins, ties := ties,
    losses := if losses = 0 then total - wins - ties else losses,
    total := total }

/-- `SimResult.win_rate`: `wins / total if total else 0.0`. -/
def SimResult.win_rate (r : SimResult) : ℚ :=
  if r.total = 0 then 0 else (r.wins : ℚ) / (r.total : ℚ)

/-- `SimResult.tie_rate`. -/
def SimResult.tie_rate (r : SimResult) : ℚ :=
  if r.total = 0 then 0 else (r.ties : ℚ) / (r.total : ℚ)

/-- `SimResult.loss_rate`. -/
def SimResult.loss_rate (r : SimResult) : ℚ :=
  if r.total = 0 then 0 else (r.losses : ℚ) / (r.total : ℚ)

/-- `deck = [c for c in range(52) if c not in used]` where
`used = set(hole_cards) | set(board)` (identical in `monte_carlo.py` and
`live_analysis.py`). -/
def baseDeck (holeCards board : List Nat) : List Nat :=
  (List.range 52).filter (fun c => decide (c ∉ holeCards ++ board))

/-- Dealing 2 cards to each opponent from consecutive deck positions. -/
def oppDeal (d : List Nat) : Nat → List (List Nat)
  | 0 => []
  | k + 1 => d.take 2 :: oppDeal (d.drop 2) k

/-- One trial's board completion and opponent dealing from the already
shuffled deck (shared verbatim between `run_monte_carlo` lines 63-75 and
`hand_distribution_and_win` lines 43-55).  Python's `deck[idx]` raises
`IndexError` exactly when the draw sequence runs past the deck. -/
def dealTrial (board : List Nat) (numOpp : Nat) (deck : List Nat) :
    Except String (List Nat × List (List Nat)) :=
  if deck.length < 5 - board.length + numOpp * 2 then
    Except.error "IndexError: list index out of range"
  else
    Except.ok (board ++ deck.take (5 - board.length),
      oppDeal (deck.drop (5 - board.length)) numOpp)

/-- The opponent-scanning loop of `run_monte_carlo` (lines 77-92):
`hero_value`/`best_opp_value` state machine.  Note the `break` on the
first beaten opponent and that `best_opp_value`, once set, is never
overwritten (`best_opp_value < -1` is unsatisfiable). -/
def mcScan (heroHand boardFinal : List Nat) : List (List Nat) → Option Int → Int
  | [], best => best.getD 0
  | opp :: rest, best =>
    if 0 < compareHands heroHand (opp ++ boardFinal) then 1
    else if compareHands heroHand (opp ++ boardFinal) < 0 then
      mcScan heroHand boardFinal rest
        (match best with
         | none => some (-1)
         | some b => if b < -1 then some (-1) else some b)
    else
      mcScan heroHand boardFinal rest
        (match best with
         | none => some 0
         | some b => some b)

/-- `wins += 1` / `losses += 1` / `ties += 1` on the (wins, ties, losses)
triple according to the trial outcome's sign. -/
def bumpWTL (acc : Nat × Nat × Nat) (o : Int) : Nat × Nat × Nat :=
  if 0 < o then (acc.1 + 1, acc.2.1, acc.2.2)
  else if o < 0 then (acc.1, acc.2.1, acc.2.2 + 1)
  else (acc.1, acc.2.1 + 1, acc.2.2)

/-- The trial loop of `run_monte_carlo` (lines 62-98), over the trial
indices, with the shuffled deck of trial `t` supplied by the oracle as
`shuf t (baseDeck …)`. -/
def mcLoop (holeCards board : List Nat) (numOpp : Nat)
    (shuf : Nat → List Nat → List Nat) :
    List Nat → Nat × Nat × Nat → Except String (Nat × Nat × Nat)
  | [], acc => Except.ok acc
  | t :: ts, acc =>
    match dealTrial board numOpp (shuf t (baseDeck holeCards board)) with
    | Except.error e => Except.error e
    | Except.ok (bf, opps) =>
      mcLoop holeCards board numOpp shuf ts
        (bumpWTL acc (mcScan (holeCards ++ bf) bf opps none))

/-- `monte_carlo.run_monte_carlo` (pure-Python path; the optional C++
extension import fails and `_cpp_run is None`).  Validation order and
error messages follow lines 40-52. -/
def runMonteCarloWith (holeCards board : List Nat) (numOpponents numTrials : Nat)
    (shuf : Nat → List Nat → List Nat) : Except String SimResult :=
  if holeCards.length ≠ 2 then
    Except.error "hole_cards must have exactly 2 cards"
  else if ¬ (board.length = 0 ∨ board.length = 3 ∨ board.length = 4 ∨
      board.length = 5) then
    Except.error "board must have 0, 3, 4, or 5 cards"
  else if ¬ (1 ≤ numOpponents ∧ numOpponents ≤ 8) then
    Except.error "num_opponents must be 1-8"
  else if (holeCards ++ board).dedup.length ≠ holeCards.length + board.length then
    Except.error "hole_cards and board must not overlap"
  else if 52 - (holeCards ++ board).dedup.length <
      5 - board.length + numOpponents * 2 then
    Except.error "not enough cards in deck for this configuration"
  else
    match mcLoop holeCards board numOpponents shuf (List.range numTrials)
        (0, 0, 0) with
    | Except.error e => Except.error e
    | Except.ok (w, t, l) => Except.ok (SimResult.make w t numTrials l)

/-- The opponent-scanning loop of `hand_distribution_and_win` (lines
61-70): starts at `hero_value = 1`, breaks on the first opponent that
beats hero, downgrades to `0` on a tie without breaking. -/
def liveScan (hero7 boardFinal : List Nat) : List (List Nat) → Int → Int
  | [], hv => hv
  | opp :: rest, hv =>
    if compareHands hero7 (opp ++ boardFinal) < 0 then -1
    else if compareHands hero7 (opp ++ boardFinal) = 0 then
      liveScan hero7 boardFinal rest 0
    else liveScan hero7 boardFinal rest hv

/-- `hand_counts[hand_type] += 1` (a `Counter` modelled as `Nat → Nat`). -/
def bumpHT (m : Nat → Nat) (ht : Nat) : Nat → Nat :=
  fun k => if k = ht then m k + 1 else m k

/-- The trial loop of `hand_distribution_and_win` (lines 42-76). -/
def distLoop (holeCards board : List Nat) (numOpp : Nat)
    (shuf : Nat → List Nat → List Nat) :
    List Nat → (Nat × Nat × Nat) × (Nat → Nat) →
    Except String ((Nat × Nat × Nat) × (Nat → Nat))
  | [], acc => Except.ok acc
  | t :: ts, acc =>
    match dealTrial board numOpp (shuf t (baseDeck holeCards board)) with
    | Except.error e => Except.error e
    | Except.ok (bf, opps) =>
      distLoop holeCards board numOpp shuf ts
        (bumpWTL acc.1 (liveScan (holeCards ++ bf) bf opps 1),
         bumpHT acc.2 (evaluate7 (holeCards ++ bf)).1)

/-- The result dictionary of `hand_distribution_and_win` (raw counters;
the reported `win_pct`/`tie_pct`/`loss_pct`/`equity` floats are the
rational accessors below, and `hand_distribution` frequencies are
`handCounts ht / trials`). -/
structure DistResult where
  wins : Nat
  ties : Nat
  losses : Nat
  trials : Nat
  handCounts : Nat → Nat

/-- `win_pct = wins / num_trials`. -/
def DistResult.win_pct (d : DistResult) : ℚ := (d.wins : ℚ) / (d.trials : ℚ)

/-- `tie_pct = ties / num_trials`. -/
def DistResult.tie_pct (d : DistResult) : ℚ := (d.ties : ℚ) / (d.trials : ℚ)

/-- `loss_pct = losses / num_trials`. -/
def DistResult.loss_pct (d : DistResult) : ℚ := (d.losses : ℚ) / (d.trials : ℚ)

/-- `equity = win_pct + tie_pct / 2`. -/
def DistResult.equity (d : DistResult) : ℚ := d.win_pct + d.tie_pct / 2

/-- `live_analysis.hand_distribution_and_win`.  Validation follows lines
29-36 (`{"error": …}` dicts modelled as `Except.error`); note that unlike
`run_monte_carlo` it does **not** validate the opponent count or the deck
size — a deck overrun surfaces only inside the trial loop as the
`IndexError` of `dealTrial`.  The return dict divides every counter by
`num_trials` eagerly (line 82), so after a zero-trial loop the call
raises `ZeroDivisionError`; on a nonzero trial count those exact
quotients of the result's raw counters are the accessors above. -/
def handDistWith (holeCards board : List Nat) (numOpponents numTrials : Nat)
    (shuf : Nat → List Nat → List Nat) : Except String DistResult :=
  if holeCards.length ≠ 2 then Except.error "Need exactly 2 hole cards"
  else if ¬ board.length ≤ 5 then Except.error "Board must have 0-5 cards"
  else if (holeCards ++ board).dedup.length ≠ holeCards.length + board.length then
    Except.error "Overlapping cards"
  else
    match distLoop holeCards board numOpponents shuf (List.range numTrials)
        ((0, 0, 0), fun _ => 0) with
    | Except.error e => Except.error e
    | Except.ok ((w, t, l), hc) =>
      if numTrials = 0 then Except.error "ZeroDivisionError: division by zero"
      else
        Except.ok { wins := w, ties := t, losses := l, trials := numTrials,
                    handCounts := hc }

/-- One record of `equity_at_each_street`'s `streets` list. -/
structure StreetRec where
  street : String
  board_len : Nat
  equity : ℚ
  win_pct : ℚ
  tie_pct : ℚ
  loss_pct : ℚ

/-- Assembling a street record from a simulation result
(`equity.py` lines 54-55 etc.). -/
def streetRecOf (name : String) (blen : Nat) (r : SimResult) : StreetRec :=
  { street := name, board_len := blen,
    equity := r.win_rate + r.tie_rate / 2,
    win_pct := r.win_rate, tie_pct := r.tie_rate, loss_pct := r.loss_rate }

/-- `equity.equity_at_each_street` (lines 36-75): one conditional
simulation per street, appended in the fixed order preflop → flop → turn
→ river; a `ValueError` raised by an inner `run_monte_carlo` call
propagates (early exit).  Each inner call re-seeds its own RNG from the
same seed, hence the same shuffle oracle is passed to every street. -/
def equityAtEachStreetWith (holeCards board : List Nat) (numOpp numTrials : Nat)
    (shuf : Nat → List Nat → List Nat) : Except String (List StreetRec) :=
  match (if 0 ≤ board.length then
           (runMonteCarloWith holeCards [] numOpp (max 500 (numTrials / 4)) shuf).map
             (fun r => [streetRecOf "preflop" 0 r])
         else Except.ok []) with
  | Except.error e => Except.error e
  | Except.ok s1 =>
    match (if 3 ≤ board.length then
             (runMonteCarloWith holeCards (board.take 3) numOpp
                 (max 500 (numTrials / 4)) shuf).map
               (fun r => s1 ++ [streetRecOf "flop" 3 r])
           else Except.ok s1) with
    | Except.error e => Except.error e
    | Except.ok s2 =>
      match (if 4 ≤ board.length then
               (runMonteCarloWith holeCards (board.take 4) numOpp
                   (max 500 (numTrials / 4)) shuf).map
                 (fun r => s2 ++ [streetRecOf "turn" 4 r])
             else Except.ok s2) with
      | Except.error e => Except.error e
      | Except.ok s3 =>
        match (if 5 ≤ board.length then
                 (runMonteCarloWith holeCards board numOpp
                     (max 500 (numTrials / 4)) shuf).map
                   (fun r => s3 ++ [streetRecOf "river" 5 r])
               else Except.ok s3) with
        | Except.error e => Except.error e
        | Except.ok s4 => Except.ok s4

/-- `equity.HAND_NAMES` (insertion order 0…8). -/
def handNames : List (Nat × String) :=
  [(0, "High Card"), (1, "One Pair"), (2, "Two Pair"), (3, "Three of a Kind"),
   (4, "Straight"), (5, "Flush"), (6, "Full House"), (7, "Four of a Kind"),
   (8, "Straight Flush")]

/-- `sorted(HAND_NAMES.keys())` (ascending). -/
def sortedHandTypes : List Nat :=
  List.insertionSort (fun a b => a ≤ b) (handNames.map Prod.fst)

/-- `HAND_NAMES[ht]` (total lookup; every use site passes a key of the
dictionary). -/
def nameOfType (ht : Nat) : String := (handNames.lookup ht).getD "Unknown"

/-- `equity.describe_hand`, reduced to its `(hand_type_id, tiebreaker)`
payload (`-1` = "Need more cards"). -/
def describeHandEval (cards : List Nat) : Int × List Nat :=
  if cards.length < 5 then (-1, [])
  else if cards.length = 5 then
    (((evaluate5 cards).1 : Int), (evaluate5 cards).2)
  else if cards.length = 7 then
    (((evaluate7 cards).1 : Int), (evaluate7 cards).2)
  else
    match bestHandOpt ((cards.sublistsLen 5).map evaluate5) with
    | some v => ((v.1 : Int), v.2)
    | none => (-1, [])

/-- `equity.get_potential_draws` (lines 102-124): flush draw iff some
suit has exactly 4 known cards, straight draw iff some 5-rank window has
exactly 4 of its ranks known, wheel draw iff at least 4 wheel ranks are
known (the source's additional non-emptiness test is implied). -/
def getPotentialDraws (holeCards board : List Nat) : List String :=
  if (holeCards ++ board).length < 5 then []
  else
    (if ((holeCards ++ board).map suit).dedup.any
        (fun s => ((holeCards ++ board).map suit).count s == 4) then
      ["Flush draw (9 outs)"] else []) ++
    (if [12, 11, 10, 9, 8, 7, 6, 5, 4, 3].any (fun hi =>
        ((windowRanks hi).filter
          (fun x => decide (x ∈ (holeCards ++ board).map rank))).length == 4) then
      ["Straight draw (8 outs)"] else []) ++
    (if 4 ≤ ([12, 0, 1, 2, 3].filter
        (fun x => decide (x ∈ (holeCards ++ board).map rank))).length then
      ["Wheel draw (8 outs)"] else [])

/-- The per-category feasibility test of `possible_hands_that_beat`
(lines 160-197). -/
def beatFeasible (holeCards board : List Nat) (ht : Nat) : Bool :=
  if ht = STRAIGHT_FLUSH then
    ((holeCards ++ board).map suit).dedup.any
      (fun s => decide (3 ≤ ((holeCards ++ board).map suit).count s))
  else if ht = FOUR_KIND then
    (List.range 13).any (fun r =>
      (holeCards.map rank).count r == 0 &&
      ((decide (1 ≤ (board.map rank).count r) &&
        decide (3 ≤ 4 - (board.map rank).count r)) ||
       (decide (2 ≤ (board.map rank).count r) &&
        decide (2 ≤ 4 - (board.map rank).count r))))
  else if ht = FLUSH then
    ((holeCards ++ board).map suit).dedup.any
      (fun s => decide (3 ≤ ((holeCards ++ board).map suit).count s))
  else if ht = STRAIGHT then
    ([12, 11, 10, 9, 8, 7, 6, 5, 4, 3].any (fun hi =>
      decide (3 ≤ ((windowRanks hi).filter
        (fun x => decide (x ∈ (holeCards ++ board).map rank))).length))) ||
    decide (3 ≤ ([12, 0, 1, 2, 3].filter
      (fun x => decide (x ∈ (holeCards ++ board).map rank))).length)
  else true

/-- `equity.possible_hands_that_beat` (lines 136-198): iterate the hand
types in `sorted(HAND_NAMES.keys())` order, skip types not above hero's,
append the names of the types judged feasible. -/
def possibleHandsThatBeat (holeCards board : List Nat) : List String :=
  if (holeCards ++ board).length < 5 then []
  else if (describeHandEval (holeCards ++ board)).1 < 0 then []
  else
    sortedHandTypes.foldl
      (fun possible (ht : Nat) =>
        if (Int.ofNat ht) ≤ (describeHandEval (holeCards ++ board)).1 then possible
        else if beatFeasible holeCards board ht then possible ++ [nameOfType ht]
        else possible) []

/-- Strength of a category name (inverse of `HAND_NAMES`), used to state
the spec's "strongest first" ordering requirement. -/
def catStrength (s : String) : Nat :=
  ((handNames.find? (fun p => p.2 == s)).map Prod.fst).getD 0

/-- `l` is strictly decreasing under the measure `f`. -/
def strictDescBy (f : String → Nat) : List String → Bool
  | [] => true
  | [_] => true
  | a :: b :: t => decide (f b < f a) && strictDescBy f (b :: t)

/-- Modelled from the spec: `random.Random(seed)`/`rng.shuffle` are Python
standard-library code absent from the repository sources.  The spec
requires a "seeded RNG … for reproducibility" whose "fixed seed
reproduces an identical trial sequence"; it is modelled as a
deterministic 64-bit LCG step. -/
def lcgNext (s : Nat) : Nat :=
  (6364136223846793005 * s + 1442695040888963407) % 18446744073709551616

/-- Swap positions `i` and `j` of a list. -/
def swapAt (l : List Nat) (i j : Nat) : List Nat :=
  (l.set i (l.getD j 0)).set j (l.getD i 0)

/-- Modelled from the spec: the Fisher–Yates walk of `rng.shuffle`,
driven by the LCG. -/
def fyGo : Nat → List Nat → Nat → List Nat
  | 0, l, _ => l
  | i + 1, l, s => fyGo i (swapAt l (i + 1) (lcgNext s % (i + 2))) (lcgNext s)

/-- Modelled from the spec: the shuffle oracle determined by a seed — a
deterministic function of `(seed, trial index, deck)`, as required for
"reproducible results under an optional seed". -/
def pyShuffleModel (seed : Nat) (t : Nat) (d : List Nat) : List Nat :=
  fyGo (d.length - 1) d (lcgNext (seed + t))

/-- `run_monte_carlo` under a fixed non-null seed: the shuffle stream is
the deterministic modelled oracle of that seed. -/
def runMonteCarloSeeded (holeCards board : List Nat)
    (numOpponents numTrials seed : Nat) : Except String SimResult :=
  runMonteCarloWith holeCards board numOpponents numTrials (pyShuffleModel seed)

/-- A concrete shuffled deck for the multi-opponent test scenario: hero
`A♣ A♦`, full board `2♣ 4♦ 6♥ 8♠ K♣`; the first four deck positions deal
`K♦ K♥` to opponent 1 (trip kings, beating hero's aces) and `3♣ 3♦` to
opponent 2 (pair of threes, losing to hero). -/
def craftedDeck : List Nat :=
  [24, 37, 1, 14] ++
    (baseDeck [12, 25] [0, 15, 30, 45, 11]).filter
      (fun c => decide (c ∉ [24, 37, 1, 14]))

/-! ### Helper lemmas: trial loops and validation -/

theorem bumpWTL_sum (acc : Nat × Nat × Nat) (o : Int) :
    (bumpWTL acc o).1 + ((bumpWTL acc o).2.1 + (bumpWTL acc o).2.2) =
      acc.1 + (acc.2.1 + acc.2.2) + 1 := by
  unfold bumpWTL
  split_ifs <;> simp <;> omega

theorem mcLoop_sum (holeCards board : List Nat) (numOpp : Nat)
    (shuf : Nat → List Nat → List Nat) :
    ∀ (ts : List Nat) (acc out : Nat × Nat × Nat),
      mcLoop holeCards board numOpp shuf ts acc = Except.ok out →
      out.1 + (out.2.1 + out.2.2) = acc.1 + (acc.2.1 + acc.2.2) + ts.length := by
  intro ts
  induction ts with
  | nil =>
    intro acc out h
    simp only [mcLoop] at h
    cases h
    simp
  | cons t ts ih =>
    intro acc out h
    simp only [mcLoop] at h
    cases hdt : dealTrial board numOpp (shuf t (baseDeck holeCards board)) with
    | error e => rw [hdt] at h; cases h
    | ok p =>
      rw [hdt] at h
      obtain ⟨bf, opps⟩ := p
      have hsum := ih _ _ h
      rw [bumpWTL_sum] at hsum
      simp only [List.length_cons]
      omega

theorem filter_length_split (p : Nat → Bool) (l : List Nat) :
    (l.filter p).length + (l.filter (fun a => !(p a))).length = l.length := by
  induction l with
  | nil => rfl
  | cons a t ih => by_cases h : p a = true <;> simp [List.filter_cons, h] <;> omega

theorem baseDeck_length (holeCards board : List Nat) :
    52 - (holeCards ++ board).dedup.length ≤ (baseDeck holeCards board).length := by
  have hsplit :=
    filter_length_split (fun c => decide (c ∉ holeCards ++ board)) (List.range 52)
  have hsub : ((List.range 52).filter
      (fun a => !(decide (a ∉ holeCards ++ board)))).length ≤
      (holeCards ++ board).dedup.length := by
    have hnd : ((List.range 52).filter
        (fun a => !(decide (a ∉ holeCards ++ board)))).Nodup :=
      (List.nodup_range 52).filter _
    calc ((List.range 52).filter
          (fun a => !(decide (a ∉ holeCards ++ board)))).length
        = ((List.range 52).filter
            (fun a => !(decide (a ∉ holeCards ++ board)))).toFinset.card :=
          (List.toFinset_card_of_nodup hnd).symm
      _ ≤ (holeCards ++ board).toFinset.card := by
          apply Finset.card_le_card
          intro x hx
          rw [List.mem_toFinset] at hx ⊢
          have := (List.mem_filter.mp hx).2
          simpa using this
      _ = (holeCards ++ board).dedup.length := List.card_toFinset _
  simp only [baseDeck]
  simp only [List.length_range] at hsplit
  omega

theorem dealTrial_ok (board : List Nat) (numOpp : Nat) (deck : List Nat)
    (h : 5 - board.length + numOpp * 2 ≤ deck.length) :
    dealTrial board numOpp deck =
      Except.ok (board ++ deck.take (5 - board.length),
        oppDeal (deck.drop (5 - board.length)) numOpp) := by
  unfold dealTrial
  rw [if_neg]
  omega

theorem mcLoop_isOk (holeCards board : List Nat) (numOpp : Nat)
    (shuf : Nat → List Nat → List Nat)
    (hlen : ∀ t, 5 - board.length + numOpp * 2 ≤
      (shuf t (baseDeck holeCards board)).length) :
    ∀ (ts : List Nat) (acc : Nat × Nat × Nat),
      ∃ out, mcLoop holeCards board numOpp shuf ts acc = Except.ok out := by
  intro ts
  induction ts with
  | nil => intro acc; exact ⟨acc, rfl⟩
  | cons t ts ih =>
    intro acc
    simp only [mcLoop, dealTrial_ok _ _ _ (hlen t)]
    exact ih _

theorem dedupLen_iff (holeCards board : List Nat) (hh : holeCards.Nodup)
    (hb : board.Nodup) :
    (holeCards ++ board).dedup.length = holeCards.length + board.length ↔
      holeCards.Disjoint board := by
  constructor
  · intro h
    have hlen : (holeCards ++ board).dedup.length = (holeCards ++ board).length := by
      simp [h]
    have heq := (List.dedup_sublist (holeCards ++ board)).eq_of_length hlen
    have hnd : (holeCards ++ board).Nodup := heq ▸ List.nodup_dedup _
    exact (List.nodup_append.mp hnd).2.2
  · intro h
    have hnd : (holeCards ++ board).Nodup := List.nodup_append.mpr ⟨hh, hb, h⟩
    rw [List.dedup_eq_self.mpr hnd]
    simp

theorem isOk_error {α : Type} (e : String) :
    (Except.error e : Except String α).isOk = false := rfl

theorem isOk_ok {α : Type} (a : α) :
    (Except.ok a : Except String α).isOk = true := rfl

theorem runMC_isOk_iff (holeCards board : List Nat) (numOpp numTrials : Nat)
    (shuf : Nat → List Nat → List Nat) (hh : holeCards.Nodup) (hb : board.Nodup)
    (hshuf : ∀ t d, (shuf t d).Perm d) :
    (runMonteCarloWith holeCards board numOpp numTrials shuf).isOk = true ↔
      (holeCards.length = 2 ∧
       (board.length = 0 ∨ board.length = 3 ∨ board.length = 4 ∨
        board.length = 5) ∧
       1 ≤ numOpp ∧ numOpp ≤ 8 ∧ holeCards.Disjoint board ∧
       5 - board.length + numOpp * 2 ≤
         52 - (holeCards.length + board.length)) := by
  unfold runMonteCarloWith
  rcases eq_or_ne holeCards.length 2 with h1 | h1
  case inr =>
    rw [if_pos h1]
    simp only [isOk_error, Bool.false_eq_true, false_iff]
    intro h
    exact h1 h.1
  rw [if_neg (not_not_intro h1)]
  by_cases h2 : board.length = 0 ∨ board.length = 3 ∨ board.length = 4 ∨
      board.length = 5
  case neg =>
    rw [if_pos h2]
    simp only [isOk_error, Bool.false_eq_true, false_iff]
    intro h
    exact h2 h.2.1
  rw [if_neg (not_not_intro h2)]
  by_cases h3 : 1 ≤ numOpp ∧ numOpp ≤ 8
  case neg =>
    rw [if_pos h3]
    simp only [isOk_error, Bool.false_eq_true, false_iff]
    intro h
    exact h3 ⟨h.2.2.1, h.2.2.2.1⟩
  rw [if_neg (not_not_intro h3)]
  by_cases h4 : (holeCards ++ board).dedup.length =
      holeCards.length + board.length
  case neg =>
    rw [if_pos h4]
    simp only [isOk_error, Bool.false_eq_true, false_iff]
    intro h
    exact h4 ((dedupLen_iff holeCards board hh hb).mpr h.2.2.2.2.1)
  rw [if_neg (not_not_intro h4)]
  by_cases h5 : 52 - (holeCards ++ board).dedup.length <
      5 - board.length + numOpp * 2
  case pos =>
    rw [if_pos h5]
    simp only [isOk_error, Bool.false_eq_true, false_iff]
    rw [h4] at h5
    intro h
    have := h.2.2.2.2.2
    omega
  rw [if_neg h5]
  have hlen : ∀ t, 5 - board.length + numOpp * 2 ≤
      (shuf t (baseDeck holeCards board)).length := by
    intro t
    have hp := (hshuf t (baseDeck holeCards board)).length_eq
    have hd := baseDeck_length holeCards board
    omega
  obtain ⟨⟨w, t, l⟩, hout⟩ :=
    mcLoop_isOk holeCards board numOpp shuf hlen (List.range numTrials) (0, 0, 0)
  rw [hout]
  simp only [isOk_ok, true_iff]
  rw [h4] at h5
  exact ⟨h1, h2, h3.1, h3.2, (dedupLen_iff holeCards board hh hb).mp h4,
    by omega⟩

theorem scan_agree_single (heroHand boardFinal opp : List Nat) :
    mcScan heroHand boardFinal [opp] none =
      liveScan heroHand boardFinal [opp] 1 := by
  rcases lt_trichotomy (compareHands heroHand (opp ++ boardFinal)) 0 with h | h | h
  · simp only [mcScan, liveScan, if_neg (by omega : ¬ (0 : Int) <
      compareHands heroHand (opp ++ boardFinal)), if_pos h]
    rfl
  · simp only [mcScan, liveScan, if_neg (by omega : ¬ (0 : Int) <
      compareHands heroHand (opp ++ boardFinal)),
      if_neg (by omega : ¬ compareHands heroHand (opp ++ boardFinal) < 0),
      if_pos h]
    rfl
  · simp only [mcScan, liveScan, if_pos h,
      if_neg (by omega : ¬ compareHands heroHand (opp ++ boardFinal) < 0),
      if_neg (by omega : ¬ compareHands heroHand (opp ++ boardFinal) = 0)]

theorem dist_mc_loop_agree (holeCards board : List Nat)
    (shuf : Nat → List Nat → List Nat) :
    ∀ (ts : List Nat) (acc : Nat × Nat × Nat) (hc : Nat → Nat),
      (distLoop holeCards board 1 shuf ts (acc, hc)).map Prod.fst =
        mcLoop holeCards board 1 shuf ts acc := by
  intro ts
  induction ts with
  | nil => intro acc hc; rfl
  | cons t ts ih =>
    intro acc hc
    simp only [distLoop, mcLoop]
    by_cases hlen : 5 - board.length + 1 * 2 ≤
        (shuf t (baseDeck holeCards board)).length
    · rw [dealTrial_ok _ _ _ hlen]
      simp only [oppDeal]
      rw [scan_agree_single]
      exact ih _ _
    · unfold dealTrial
      rw [if_pos (by omega)]
      rfl

theorem runMC_ok_elim (holeCards board : List Nat) (numOpp numTrials : Nat)
    (shuf : Nat → List Nat → List Nat) (s : SimResult)
    (h : runMonteCarloWith holeCards board numOpp numTrials shuf =
      Except.ok s) :
    ∃ w t l, mcLoop holeCards board numOpp shuf (List.range numTrials)
        (0, 0, 0) = Except.ok (w, t, l) ∧
      s = SimResult.make w t numTrials l := by
  unfold runMonteCarloWith at h
  split_ifs at h
  cases hml : mcLoop holeCards board numOpp shuf (List.range numTrials)
      (0, 0, 0) with
  | error e => rw [hml] at h; cases h
  | ok out =>
    obtain ⟨w, t, l⟩ := out
    rw [hml] at h
    simp only [Except.ok.injEq] at h
    exact ⟨w, t, l, rfl, h.symm⟩

theorem handDist_ok_elim (holeCards board : List Nat) (numOpp numTrials : Nat)
    (shuf : Nat → List Nat → List Nat) (d : DistResult)
    (h : handDistWith holeCards board numOpp numTrials shuf = Except.ok d) :
    ∃ w t l hc, distLoop holeCards board numOpp shuf (List.range numTrials)
        ((0, 0, 0), fun _ => 0) = Except.ok ((w, t, l), hc) ∧
      d = ⟨w, t, l, numTrials, hc⟩ ∧ numTrials ≠ 0 := by
  unfold handDistWith at h
  by_cases hv1 : holeCards.length ≠ 2
  · rw [if_pos hv1] at h; cases h
  rw [if_neg hv1] at h
  by_cases hv2 : ¬ board.length ≤ 5
  · rw [if_pos hv2] at h; cases h
  rw [if_neg hv2] at h
  by_cases hv3 : (holeCards ++ board).dedup.length ≠
      holeCards.length + board.length
  · rw [if_pos hv3] at h; cases h
  rw [if_neg hv3] at h
  cases hml : distLoop holeCards board numOpp shuf (List.range numTrials)
      ((0, 0, 0), fun _ => 0) with
  | error e => rw [hml] at h; cases h
  | ok out =>
    obtain ⟨⟨w, t, l⟩, hc⟩ := out
    simp only [hml] at h
    by_cases hz : numTrials = 0
    · rw [if_pos hz] at h
      cases h
    · rw [if_neg hz] at h
      simp only [Except.ok.injEq] at h
      exact ⟨w, t, l, hc, rfl, h.symm, hz⟩

/-! ### Helper lemmas: the classifier on straight hands -/

theorem hasStraight_congr (r1 r2 : List Nat) (h : ∀ x : Nat, x ∈ r1 ↔ x ∈ r2) :
    hasStraight r1 = hasStraight r2 := by
  have hd : ∀ x : Nat, decide (x ∈ r1) = decide (x ∈ r2) := by
    intro x
    exact decide_eq_decide.mpr (h x)
  simp only [hasStraight, hd]

theorem countGroups_mem_snd (ranks : List Nat) (hnd : ranks.Nodup) :
    ∀ e ∈ countGroups ranks, e.2 = 1 := by
  intro e he
  have hmem := (List.perm_insertionSort _ _).mem_iff.mp he
  obtain ⟨r, hr, rfl⟩ := List.mem_map.mp hmem
  simpa using List.count_eq_one_of_mem hnd (List.mem_dedup.mp hr)

theorem countGroups_length (ranks : List Nat) :
    (countGroups ranks).length = ranks.dedup.length := by
  simp [countGroups, List.length_insertionSort]

theorem headD_mem {α : Type} (l : List α) (d : α) (h : l ≠ []) :
    l.headD d ∈ l := by
  cases l with
  | nil => exact absurd rfl h
  | cons a t => simp [List.headD]

theorem evaluate5_straight (cards : List Nat) (hi : Nat)
    (hnd : (cards.map rank).Nodup) (hne : cards ≠ [])
    (hflush : isFlushOf cards = false)
    (hsh : hasStraight (cards.map rank) = some hi) :
    evaluate5 cards = (STRAIGHT, [hi]) := by
  have hlen0 : (countGroups (cards.map rank)).length ≠ 0 := by
    rw [countGroups_length]
    simp only [ne_eq, List.length_eq_zero, List.dedup_eq_nil, List.map_eq_nil_iff]
    exact hne
  have hmem : (countGroups (cards.map rank)).headD (0, 0) ∈
      countGroups (cards.map rank) :=
    headD_mem _ _ (by
      intro hnil
      rw [hnil] at hlen0
      exact hlen0 rfl)
  have hcg : cg0count cards = 1 := countGroups_mem_snd _ hnd _ hmem
  unfold evaluate5
  rw [hflush, hsh]
  simp [cg0count] at hcg
  simp [cg0count, hcg]

/-! ### Helper lemmas: distribution-sampler loop -/

theorem dealTrial_error (board : List Nat) (numOpp : Nat) (deck : List Nat)
    (e : String) (h : dealTrial board numOpp deck = Except.error e) :
    e = "IndexError: list index out of range" := by
  unfold dealTrial at h
  split_ifs at h
  cases h
  rfl

theorem distLoop_error (holeCards board : List Nat) (numOpp : Nat)
    (shuf : Nat → List Nat → List Nat) :
    ∀ (ts : List Nat) (acc : (Nat × Nat × Nat) × (Nat → Nat)) (e : String),
      distLoop holeCards board numOpp shuf ts acc = Except.error e →
      e = "IndexError: list index out of range" := by
  intro ts
  induction ts with
  | nil =>
    intro acc e h
    cases h
  | cons t ts ih =>
    intro acc e h
    simp only [distLoop] at h
    cases hdt : dealTrial board numOpp (shuf t (baseDeck holeCards board)) with
    | error e2 =>
      rw [hdt] at h
      cases h
      exact dealTrial_error _ _ _ _ hdt
    | ok p =>
      rw [hdt] at h
      obtain ⟨bf, opps⟩ := p
      exact ih _ _ h

theorem distLoop_isOk (holeCards board : List Nat) (numOpp : Nat)
    (shuf : Nat → List Nat → List Nat)
    (hlen : ∀ t, 5 - board.length + numOpp * 2 ≤
      (shuf t (baseDeck holeCards board)).length) :
    ∀ (ts : List Nat) (acc : (Nat × Nat × Nat) × (Nat → Nat)),
      ∃ out, distLoop holeCards board numOpp shuf ts acc = Except.ok out := by
  intro ts
  induction ts with
  | nil => intro acc; exact ⟨acc, rfl⟩
  | cons t ts ih =>
    intro acc
    simp only [distLoop, dealTrial_ok _ _ _ (hlen t)]
    exact ih _

/-! ### Claim theorems -/

/-- C1 (code-bug evaluation): the claimed per-trial rule says hero loses
the trial whenever at least one opponent's hand value is strictly greater
than hero's, and a trial where hero beats one opponent but is beaten by
another is a loss, never a win.  `run_monte_carlo` instead breaks out of
the opponent scan with an overall win on the first beaten opponent: with
hero `A♣ A♦`, board `2♣ 4♦ 6♥ 8♠ K♣`, opponent 1 holding `K♦ K♥` (trip
kings — strictly greater than hero, `compare_hands = -1`) and opponent 2
holding `3♣ 3♦` (`compare_hands = 1`), the single trial is tallied as a
win (`wins = 1`), where the claim requires a loss.  The crafted deck is a
permutation of the trial's remaining deck. -/
theorem claim1_outcome_rule_code_bug :
    runMonteCarloWith [12, 25] [0, 15, 30, 45, 11] 2 1
        (fun _ _ => craftedDeck) = Except.ok ⟨1, 0, 0, 1⟩ ∧
    compareHands ([12, 25] ++ [0, 15, 30, 45, 11])
      ([24, 37] ++ [0, 15, 30, 45, 11]) = -1 ∧
    compareHands ([12, 25] ++ [0, 15, 30, 45, 11])
      ([1, 14] ++ [0, 15, 30, 45, 11]) = 1 ∧
    craftedDeck.Perm (baseDeck [12, 25] [0, 15, 30, 45, 11]) :=
  ⟨rfl, rfl, rfl, by decide⟩

/-- C3 (code-bug evaluation): `possible_hands_that_beat` is claimed (by
the spec and by the source's own comment "Iterate stronger types in order
(best first)") to return the feasible categories strongest first, but it
iterates `sorted(HAND_NAMES.keys())` — ascending — so the returned list
is weakest first: on hero `2♣ 7♦` with board `6♥ 8♠ K♣` (a high-card
hand) the output starts with "One Pair" and is not strictly decreasing in
category strength. -/
theorem claim3_ordering_code_bug :
    possibleHandsThatBeat [0, 18] [30, 45, 11] =
      ["One Pair", "Two Pair", "Three of a Kind", "Straight", "Full House",
       "Four of a Kind"] ∧
    strictDescBy catStrength (possibleHandsThatBeat [0, 18] [30, 45, 11]) =
      false :=
  ⟨rfl, rfl⟩

/-- C10: with fewer than 5 known cards, `get_potential_draws` reports no
draw at all. -/
theorem claim10_no_draws_under_5 (holeCards board : List Nat)
    (h : holeCards.length + board.length < 5) :
    getPotentialDraws holeCards board = [] := by
  unfold getPotentialDraws
  rw [if_pos (by simpa using h)]

/-- Witness for C10 at hole `[0,1]`, board `[2,3]`. -/
theorem claim10_no_draws_under_5_witness :
    [0, 1].length + [2, 3].length < 5 ∧ getPotentialDraws [0, 1] [2, 3] = [] :=
  ⟨by decide, claim10_no_draws_under_5 [0, 1] [2, 3] (by decide)⟩

/-- C6: `run_monte_carlo` is deterministic under a fixed seed — two runs
with identical hole cards, board, opponent count, trial count and the
same seed produce identical win/tie/loss/total counts. -/
theorem claim6_seed_determinism (holeCards board : List Nat)
    (numOpp numTrials seed : Nat) (r1 r2 : SimResult)
    (h1 : runMonteCarloSeeded holeCards board numOpp numTrials seed =
      Except.ok r1)
    (h2 : runMonteCarloSeeded holeCards board numOpp numTrials seed =
      Except.ok r2) :
    r1.wins = r2.wins ∧ r1.ties = r2.ties ∧ r1.losses = r2.losses ∧
      r1.total = r2.total := by
  rw [h1] at h2
  cases h2
  exact ⟨rfl, rfl, rfl, rfl⟩

/-- Witness for C6: two seeded runs (hole `[0,1]`, 1 opponent, 3 trials,
seed 7) both evaluate to 1 win, 1 tie, 1 loss. -/
theorem claim6_seed_determinism_witness :
    (⟨1, 1, 1, 3⟩ : SimResult).wins = (⟨1, 1, 1, 3⟩ : SimResult).wins ∧
    (⟨1, 1, 1, 3⟩ : SimResult).ties = (⟨1, 1, 1, 3⟩ : SimResult).ties ∧
    (⟨1, 1, 1, 3⟩ : SimResult).losses = (⟨1, 1, 1, 3⟩ : SimResult).losses ∧
    (⟨1, 1, 1, 3⟩ : SimResult).total = (⟨1, 1, 1, 3⟩ : SimResult).total :=
  claim6_seed_determinism [0, 1] [] 1 3 7 ⟨1, 1, 1, 3⟩ ⟨1, 1, 1, 3⟩ rfl rfl

/-- C7: every 5-card hand whose ranks are exactly the wheel
`A,2,3,4,5` (rank values `12,0,1,2,3`) and which is not single-suited
classifies as a Straight with tiebreak key `(3)` (the card "five"), and
that hand value is strictly below any six-high straight, whose tiebreak
key is `(4)`. -/
theorem claim7_wheel_straight (cards cards2 : List Nat)
    (hperm : (cards.map rank).Perm [12, 0, 1, 2, 3])
    (hflush : isFlushOf cards = false)
    (hperm2 : (cards2.map rank).Perm [0, 1, 2, 3, 4])
    (hflush2 : isFlushOf cards2 = false) :
    evaluate5 cards = (STRAIGHT, [3]) ∧ evaluate5 cards2 = (STRAIGHT, [4]) ∧
      handLt (evaluate5 cards) (evaluate5 cards2) = true := by
  have hne : cards ≠ [] := by
    intro h
    subst h
    have := hperm.length_eq
    simp at this
  have hne2 : cards2 ≠ [] := by
    intro h
    subst h
    have := hperm2.length_eq
    simp at this
  have h1 : evaluate5 cards = (STRAIGHT, [3]) := by
    apply evaluate5_straight
    · exact hperm.nodup_iff.mpr (by decide)
    · exact hne
    · exact hflush
    · rw [hasStraight_congr _ [12, 0, 1, 2, 3] (fun x => hperm.mem_iff)]
      decide
  have h2 : evaluate5 cards2 = (STRAIGHT, [4]) := by
    apply evaluate5_straight
    · exact hperm2.nodup_iff.mpr (by decide)
    · exact hne2
    · exact hflush2
    · rw [hasStraight_congr _ [0, 1, 2, 3, 4] (fun x => hperm2.mem_iff)]
      decide
  refine ⟨h1, h2, ?_⟩
  rw [h1, h2]
  decide

/-- Witness for C7: `A♣ 2♣ 3♣ 4♣ 5♦` versus `2♣ 3♣ 4♣ 5♦ 6♣`. -/
theorem claim7_wheel_straight_witness :
    evaluate5 [12, 0, 1, 2, 16] = (STRAIGHT, [3]) ∧
    evaluate5 [0, 1, 2, 16, 4] = (STRAIGHT, [4]) ∧
    handLt (evaluate5 [12, 0, 1, 2, 16]) (evaluate5 [0, 1, 2, 16, 4]) = true :=
  claim7_wheel_straight [12, 0, 1, 2, 16] [0, 1, 2, 16, 4]
    (by decide) (by decide) (by decide) (by decide)

/-- C5: every `SimResult` returned by a successful `run_monte_carlo` call
satisfies `wins + ties + losses = total` with `total` the requested trial
count; the three rates sum to exactly 1 in rational arithmetic whenever
`total ≠ 0`, and each rate accessor returns 0 when `total = 0`. -/
theorem claim5_simresult_invariants (holeCards board : List Nat)
    (numOpp numTrials : Nat) (shuf : Nat → List Nat → List Nat)
    (s : SimResult)
    (h : runMonteCarloWith holeCards board numOpp numTrials shuf =
      Except.ok s) :
    s.wins + s.ties + s.losses = s.total ∧ s.total = numTrials ∧
    (s.total ≠ 0 → s.win_rate + s.tie_rate + s.loss_rate = 1) ∧
    (s.total = 0 → s.win_rate = 0 ∧ s.tie_rate = 0 ∧ s.loss_rate = 0) := by
  obtain ⟨w, t, l, hml, hs⟩ := runMC_ok_elim _ _ _ _ _ _ h
  have hsum := mcLoop_sum _ _ _ _ _ _ _ hml
  simp only [List.length_range] at hsum
  subst hs
  have hl : (SimResult.make w t numTrials l).losses = l := by
    unfold SimResult.make
    split_ifs with h0
    · simp only
      omega
    · rfl
  have hw : (SimResult.make w t numTrials l).wins = w := rfl
  have ht : (SimResult.make w t numTrials l).ties = t := rfl
  have htot : (SimResult.make w t numTrials l).total = numTrials := rfl
  refine ⟨?_, htot, ?_, ?_⟩
  · rw [hl, hw, ht, htot]
    omega
  · intro h0
    rw [htot] at h0
    unfold SimResult.win_rate SimResult.tie_rate SimResult.loss_rate
    rw [htot, if_neg h0, if_neg h0, if_neg h0, hl, hw, ht]
    rw [div_add_div_same, div_add_div_same]
    have hcast : ((w : ℚ) + t + l) = (numTrials : ℚ) := by
      exact_mod_cast (by omega : w + t + l = numTrials)
    rw [hcast]
    exact div_self (Nat.cast_ne_zero.mpr h0)
  · intro h0
    rw [htot] at h0
    unfold SimResult.win_rate SimResult.tie_rate SimResult.loss_rate
    rw [htot, if_pos h0, if_pos h0, if_pos h0]
    exact ⟨rfl, rfl, rfl⟩

/-- Witness for C5: one trial against one opponent with the identity
shuffle oracle — hero's six-high straight loses to the opponent's
ten-high straight, giving the result 0 wins, 0 ties, 1 loss of 1. -/
theorem claim5_simresult_invariants_witness :
    (⟨0, 0, 1, 1⟩ : SimResult).wins + (⟨0, 0, 1, 1⟩ : SimResult).ties +
        (⟨0, 0, 1, 1⟩ : SimResult).losses = (⟨0, 0, 1, 1⟩ : SimResult).total ∧
    (⟨0, 0, 1, 1⟩ : SimResult).total = 1 ∧
    ((⟨0, 0, 1, 1⟩ : SimResult).total ≠ 0 →
      (⟨0, 0, 1, 1⟩ : SimResult).win_rate + (⟨0, 0, 1, 1⟩ : SimResult).tie_rate +
        (⟨0, 0, 1, 1⟩ : SimResult).loss_rate = 1) ∧
    ((⟨0, 0, 1, 1⟩ : SimResult).total = 0 →
      (⟨0, 0, 1, 1⟩ : SimResult).win_rate = 0 ∧
      (⟨0, 0, 1, 1⟩ : SimResult).tie_rate = 0 ∧
      (⟨0, 0, 1, 1⟩ : SimResult).loss_rate = 0) :=
  claim5_simresult_invariants [0, 1] [] 1 1 (fun _ d => d) ⟨0, 0, 1, 1⟩ rfl

/-- C4: for data-model-valid card lists (distinct cards in each of hole
and board), a `run_monte_carlo` call succeeds (no error is signalled, and
the validation happens before any trial) exactly when all preconditions
hold: exactly 2 hole cards, board length in {0,3,4,5}, opponent count in
[1,8], hole and board disjoint, and enough remaining deck cards to
complete the board and deal 2 cards per opponent. -/
theorem claim4_validation_iff (holeCards board : List Nat)
    (numOpp numTrials : Nat) (shuf : Nat → List Nat → List Nat)
    (hh : holeCards.Nodup) (hb : board.Nodup)
    (hshuf : ∀ t d, (shuf t d).Perm d) :
    (runMonteCarloWith holeCards board numOpp numTrials shuf).isOk = true ↔
      (holeCards.length = 2 ∧
       (board.length = 0 ∨ board.length = 3 ∨ board.length = 4 ∨
        board.length = 5) ∧
       1 ≤ numOpp ∧ numOpp ≤ 8 ∧ holeCards.Disjoint board ∧
       5 - board.length + numOpp * 2 ≤
         52 - (holeCards.length + board.length)) :=
  runMC_isOk_iff holeCards board numOpp numTrials shuf hh hb hshuf

/-- Witness for C4 at the valid input hole `[0,1]`, empty board, one
opponent. -/
theorem claim4_validation_iff_witness :
    (runMonteCarloWith [0, 1] [] 1 0 (fun _ d => d)).isOk = true ↔
      ([0, 1].length = 2 ∧
       (([] : List Nat).length = 0 ∨ ([] : List Nat).length = 3 ∨
        ([] : List Nat).length = 4 ∨ ([] : List Nat).length = 5) ∧
       1 ≤ 1 ∧ 1 ≤ 8 ∧ ([0, 1] : List Nat).Disjoint [] ∧
       5 - ([] : List Nat).length + 1 * 2 ≤
         52 - ([0, 1].length + ([] : List Nat).length)) :=
  claim4_validation_iff [0, 1] [] 1 0 (fun _ d => d) (by decide) (by decide)
    (fun _ d => List.Perm.refl d)

/-- C2 counterexample: with the same hole cards, board, opponent count,
trial count and shuffle stream (i.e. the same seed), the basic simulator
and the distribution sampler produce different win/loss tallies — the
basic path records the crafted trial as a win, the distribution path as a
loss. -/
theorem claim2_counterexample :
    (runMonteCarloWith [12, 25] [0, 15, 30, 45, 11] 2 1
        (fun _ _ => craftedDeck)).map SimResult.wins = Except.ok 1 ∧
    (handDistWith [12, 25] [0, 15, 30, 45, 11] 2 1
        (fun _ _ => craftedDeck)).map DistResult.wins = Except.ok 0 ∧
    (runMonteCarloWith [12, 25] [0, 15, 30, 45, 11] 2 1
        (fun _ _ => craftedDeck)).map SimResult.losses = Except.ok 0 ∧
    (handDistWith [12, 25] [0, 15, 30, 45, 11] 2 1
        (fun _ _ => craftedDeck)).map DistResult.losses = Except.ok 1 :=
  ⟨rfl, rfl, rfl, rfl⟩

/-- C2 (amended): with a single opponent the two samplers apply the same
per-trial outcome rule, so any pair of successful calls sharing hole
cards, board, trial count and shuffle stream (seed) produces identical
win/tie/loss tallies; with two or more opponents the tallies can differ
(see the counterexample). -/
theorem claim2_single_opponent_agreement (holeCards board : List Nat)
    (numTrials : Nat) (shuf : Nat → List Nat → List Nat) (s : SimResult)
    (d : DistResult)
    (hmc : runMonteCarloWith holeCards board 1 numTrials shuf = Except.ok s)
    (hd : handDistWith holeCards board 1 numTrials shuf = Except.ok d) :
    s.wins = d.wins ∧ s.ties = d.ties ∧ s.losses = d.losses ∧
      s.total = d.trials := by
  obtain ⟨w, t, l, hml, hs⟩ := runMC_ok_elim _ _ _ _ _ _ hmc
  obtain ⟨w2, t2, l2, hc, hdl, hdd, _⟩ := handDist_ok_elim _ _ _ _ _ _ hd
  have hag := dist_mc_loop_agree holeCards board shuf (List.range numTrials)
    (0, 0, 0) (fun _ => 0)
  rw [hdl, hml] at hag
  simp only [Except.map, Except.ok.injEq, Prod.mk.injEq] at hag
  obtain ⟨hw, ht, hl⟩ := hag
  have hsum := mcLoop_sum _ _ _ _ _ _ _ hml
  simp only [List.length_range] at hsum
  subst hs
  subst hdd
  refine ⟨hw.symm, ht.symm, ?_, rfl⟩
  show (SimResult.make w t numTrials l).losses = l2
  unfold SimResult.make
  split_ifs with h0
  · simp only
    omega
  · simpa using hl.symm

/-- Witness for C2 (amended) at hole `[0,1]`, empty board, one opponent,
one trial, identity shuffle oracle: both samplers tally the trial as a
loss (hero's straight flush to the six loses to the opponent's straight
flush to the ten), and the sampled hand category is Straight Flush. -/
theorem claim2_single_opponent_agreement_witness :
    (⟨0, 0, 1, 1⟩ : SimResult).wins =
        (⟨0, 0, 1, 1, fun k => if k = 8 then 1 else 0⟩ : DistResult).wins ∧
    (⟨0, 0, 1, 1⟩ : SimResult).ties =
        (⟨0, 0, 1, 1, fun k => if k = 8 then 1 else 0⟩ : DistResult).ties ∧
    (⟨0, 0, 1, 1⟩ : SimResult).losses =
        (⟨0, 0, 1, 1, fun k => if k = 8 then 1 else 0⟩ : DistResult).losses ∧
    (⟨0, 0, 1, 1⟩ : SimResult).total =
        (⟨0, 0, 1, 1, fun k => if k = 8 then 1 else 0⟩ : DistResult).trials :=
  claim2_single_opponent_agreement [0, 1] [] 1 (fun _ d => d)
    ⟨0, 0, 1, 1⟩ ⟨0, 0, 1, 1, fun k => if k = 8 then 1 else 0⟩ rfl rfl

/-- C9 counterexample: the claim says an opponent count outside `[1,8]`
is detected and surfaced before any trial runs, but
`hand_distribution_and_win` never validates the opponent count — a call
with 0 opponents (and one executed trial) succeeds. -/
theorem claim9_counterexample :
    (handDistWith [0, 1] [] 0 1 (fun _ d => d)).isOk = true := rfl

/-- C9 (amended): `hand_distribution_and_win` surfaces, before any trial
work, exactly the three violations it checks — hole-card count ≠ 2,
board longer than 5, overlapping hole/board — and on inputs that are
valid in the §4.2 sense (which requires at least one trial) neither the
trial loop nor the final rate computation can fail; the opponent count is
never validated, and deck exhaustion is not checked up front (it can only
surface inside the trial loop as an index error). -/
theorem claim9_precheck_iff (holeCards board : List Nat)
    (numOpp numTrials : Nat) (shuf : Nat → List Nat → List Nat)
    (hh : holeCards.Nodup) (hb : board.Nodup)
    (hshuf : ∀ t d, (shuf t d).Perm d) :
    ((handDistWith holeCards board numOpp numTrials shuf =
        Except.error "Need exactly 2 hole cards" ∨
      handDistWith holeCards board numOpp numTrials shuf =
        Except.error "Board must have 0-5 cards" ∨
      handDistWith holeCards board numOpp numTrials shuf =
        Except.error "Overlapping cards") ↔
      (holeCards.length ≠ 2 ∨ 5 < board.length ∨
        ¬ holeCards.Disjoint board)) ∧
    (holeCards.length = 2 → board.length ≤ 5 → holeCards.Disjoint board →
      1 ≤ numOpp → numOpp ≤ 8 → 1 ≤ numTrials →
      (handDistWith holeCards board numOpp numTrials shuf).isOk = true) := by
  by_cases h1 : holeCards.length = 2
  case neg =>
    unfold handDistWith
    rw [if_pos h1]
    constructor
    · constructor
      · intro _
        exact Or.inl h1
      · intro _
        exact Or.inl rfl
    · intro h2
      exact absurd h2 h1
  by_cases h2 : board.length ≤ 5
  case neg =>
    unfold handDistWith
    rw [if_neg (not_not_intro h1), if_pos h2]
    constructor
    · constructor
      · intro _
        exact Or.inr (Or.inl (by omega))
      · intro _
        exact Or.inr (Or.inl rfl)
    · intro _ hb5
      exact absurd hb5 h2
  by_cases h3 : holeCards.Disjoint board
  case neg =>
    have h4 : (holeCards ++ board).dedup.length ≠
        holeCards.length + board.length := by
      intro heq
      exact h3 ((dedupLen_iff holeCards board hh hb).mp heq)
    unfold handDistWith
    rw [if_neg (not_not_intro h1), if_neg (not_not_intro h2), if_pos h4]
    constructor
    · constructor
      · intro _
        exact Or.inr (Or.inr h3)
      · intro _
        exact Or.inr (Or.inr rfl)
    · intro _ _ hdj
      exact absurd hdj h3
  have h4 : (holeCards ++ board).dedup.length =
      holeCards.length + board.length :=
    (dedupLen_iff holeCards board hh hb).mpr h3
  unfold handDistWith
  rw [if_neg (not_not_intro h1), if_neg (not_not_intro h2),
    if_neg (not_not_intro h4)]
  constructor
  · constructor
    · intro hcases
      exfalso
      cases hml : distLoop holeCards board numOpp shuf (List.range numTrials)
          ((0, 0, 0), fun _ => 0) with
      | error e =>
        have he := distLoop_error _ _ _ _ _ _ _ hml
        rw [hml] at hcases
        subst he
        rcases hcases with hx | hx | hx <;>
          · simp only [Except.error.injEq] at hx
            exact absurd hx (by decide)
      | ok out =>
        obtain ⟨⟨w, t, l⟩, hc⟩ := out
        simp only [hml] at hcases
        by_cases hz : numTrials = 0
        · rw [if_pos hz] at hcases
          rcases hcases with hx | hx | hx <;>
            · simp only [Except.error.injEq] at hx
              exact absurd hx (by decide)
        · rw [if_neg hz] at hcases
          rcases hcases with hx | hx | hx <;> cases hx
    · intro hcases
      rcases hcases with hx | hx | hx
      · exact absurd h1 hx
      · omega
      · exact absurd h3 hx
  · intro _ _ _ _ ho8 htr
    have hlen : ∀ t, 5 - board.length + numOpp * 2 ≤
        (shuf t (baseDeck holeCards board)).length := by
      intro t
      have hp := (hshuf t (baseDeck holeCards board)).length_eq
      have hd := baseDeck_length holeCards board
      rw [h4] at hd
      omega
    obtain ⟨⟨⟨w, t, l⟩, hc⟩, hout⟩ :=
      distLoop_isOk holeCards board numOpp shuf hlen (List.range numTrials)
        ((0, 0, 0), fun _ => 0)
    simp only [hout]
    rw [if_neg (by omega : ¬ numTrials = 0)]
    rfl

/-- Witness for C9 (amended) at hole `[0,1]`, empty board, one opponent,
one trial. -/
theorem claim9_precheck_iff_witness :
    ((handDistWith [0, 1] [] 1 1 (fun _ d => d) =
        Except.error "Need exactly 2 hole cards" ∨
      handDistWith [0, 1] [] 1 1 (fun _ d => d) =
        Except.error "Board must have 0-5 cards" ∨
      handDistWith [0, 1] [] 1 1 (fun _ d => d) =
        Except.error "Overlapping cards") ↔
      ([0, 1].length ≠ 2 ∨ 5 < ([] : List Nat).length ∨
        ¬ ([0, 1] : List Nat).Disjoint [])) ∧
    ([0, 1].length = 2 → ([] : List Nat).length ≤ 5 →
      ([0, 1] : List Nat).Disjoint [] → 1 ≤ 1 → 1 ≤ 8 → 1 ≤ 1 →
      (handDistWith [0, 1] [] 1 1 (fun _ d => d)).isOk = true) :=
  claim9_precheck_iff [0, 1] [] 1 1 (fun _ d => d) (by decide) (by decide)
    (fun _ d => List.Perm.refl d)

theorem runMC_street_ok (holeCards board2 : List Nat) (numOpp numTrials : Nat)
    (shuf : Nat → List Nat → List Nat)
    (hh2 : holeCards.length = 2) (hnd : (holeCards ++ board2).Nodup)
    (hbl : board2.length = 0 ∨ board2.length = 3 ∨ board2.length = 4 ∨
      board2.length = 5)
    (ho1 : 1 ≤ numOpp) (ho8 : numOpp ≤ 8)
    (hshuf : ∀ t d, (shuf t d).Perm d) :
    ∃ s, runMonteCarloWith holeCards board2 numOpp numTrials shuf =
      Except.ok s := by
  obtain ⟨hh, hb, hdj⟩ := List.nodup_append.mp hnd
  have hok : (runMonteCarloWith holeCards board2 numOpp numTrials shuf).isOk =
      true := by
    rw [runMC_isOk_iff holeCards board2 numOpp numTrials shuf hh hb hshuf]
    refine ⟨hh2, hbl, ho1, ho8, hdj, ?_⟩
    rcases hbl with h | h | h | h <;> omega
  cases hres : runMonteCarloWith holeCards board2 numOpp numTrials shuf with
  | error e => rw [hres] at hok; cases hok
  | ok s => exact ⟨s, rfl⟩

/-- C8: on every valid call, `equity_at_each_street` succeeds and returns
street records in the fixed order preflop, flop, turn, river, containing
exactly those streets whose required board length (0/3/4/5) does not
exceed the input board's length, each record's `board_len` equal to that
street's required length; in particular a 3-card board yields exactly 2
records. -/
theorem claim8_street_order (holeCards board : List Nat)
    (numOpp numTrials : Nat) (shuf : Nat → List Nat → List Nat)
    (hh2 : holeCards.length = 2) (hh : holeCards.Nodup) (hb : board.Nodup)
    (hdj : holeCards.Disjoint board) (hbl : board.length ≤ 5)
    (ho1 : 1 ≤ numOpp) (ho8 : numOpp ≤ 8)
    (hshuf : ∀ t d, (shuf t d).Perm d) :
    (equityAtEachStreetWith holeCards board numOpp numTrials shuf).isOk =
      true ∧
    ∀ l, equityAtEachStreetWith holeCards board numOpp numTrials shuf =
        Except.ok l →
      l.map (fun sr => (sr.street, sr.board_len)) =
        ([("preflop", 0), ("flop", 3), ("turn", 4), ("river", 5)].filter
          (fun p => decide (p.2 ≤ board.length))) ∧
      (board.length = 3 → l.length = 2) := by
  have hnodall : (holeCards ++ board).Nodup := List.nodup_append.mpr ⟨hh, hb, hdj⟩
  obtain ⟨s1, e1⟩ := runMC_street_ok holeCards [] numOpp
    (max 500 (numTrials / 4)) shuf hh2 (by simpa using hh) (Or.inl rfl)
    ho1 ho8 hshuf
  by_cases h3 : 3 ≤ board.length
  · obtain ⟨s2, e2⟩ := runMC_street_ok holeCards (board.take 3) numOpp
      (max 500 (numTrials / 4)) shuf hh2
      (List.Nodup.sublist
        (List.Sublist.append_left (List.take_sublist 3 board) holeCards)
        hnodall)
      (Or.inr (Or.inl (by rw [List.length_take]; omega))) ho1 ho8 hshuf
    by_cases h4 : 4 ≤ board.length
    · obtain ⟨s3, e3⟩ := runMC_street_ok holeCards (board.take 4) numOpp
        (max 500 (numTrials / 4)) shuf hh2
        (List.Nodup.sublist
          (List.Sublist.append_left (List.take_sublist 4 board) holeCards)
          hnodall)
        (Or.inr (Or.inr (Or.inl (by rw [List.length_take]; omega)))) ho1 ho8 hshuf
      by_cases h5 : 5 ≤ board.length
      · obtain ⟨s4, e4⟩ := runMC_street_ok holeCards board numOpp
          (max 500 (numTrials / 4)) shuf hh2 hnodall
          (Or.inr (Or.inr (Or.inr (by omega)))) ho1 ho8 hshuf
        have hval : equityAtEachStreetWith holeCards board numOpp numTrials
            shuf = Except.ok [streetRecOf "preflop" 0 s1,
              streetRecOf "flop" 3 s2, streetRecOf "turn" 4 s3,
              streetRecOf "river" 5 s4] := by
          simp only [equityAtEachStreetWith, if_pos (Nat.zero_le board.length),
            if_pos h3, if_pos h4, if_pos h5, e1, e2, e3, e4, Except.map]
          rfl
        refine ⟨by rw [hval]; rfl, ?_⟩
        intro l hl
        rw [hval] at hl
        cases hl
        constructor
        · simp [streetRecOf, List.filter, h3, h4, h5]
        · intro hx
          exfalso
          omega
      · have hval : equityAtEachStreetWith holeCards board numOpp numTrials
            shuf = Except.ok [streetRecOf "preflop" 0 s1,
              streetRecOf "flop" 3 s2, streetRecOf "turn" 4 s3] := by
          simp only [equityAtEachStreetWith, if_pos (Nat.zero_le board.length),
            if_pos h3, if_pos h4, if_neg h5, e1, e2, e3, Except.map]
          rfl
        refine ⟨by rw [hval]; rfl, ?_⟩
        intro l hl
        rw [hval] at hl
        cases hl
        constructor
        · simp [streetRecOf, List.filter, h3, h4, h5]
        · intro hx
          exfalso
          omega
    · have hval : equityAtEachStreetWith holeCards board numOpp numTrials
          shuf = Except.ok [streetRecOf "preflop" 0 s1,
            streetRecOf "flop" 3 s2] := by
        have h5 : ¬ 5 ≤ board.length := by omega
        simp only [equityAtEachStreetWith, if_pos (Nat.zero_le board.length),
          if_pos h3, if_neg h4, if_neg h5, e1, e2, Except.map]
        rfl
      refine ⟨by rw [hval]; rfl, ?_⟩
      intro l hl
      rw [hval] at hl
      cases hl
      constructor
      · have h5 : ¬ 5 ≤ board.length := by omega
        simp [streetRecOf, List.filter, h3, h4, h5]
      · intro hx
        rfl
  · have hval : equityAtEachStreetWith holeCards board numOpp numTrials
        shuf = Except.ok [streetRecOf "preflop" 0 s1] := by
      have h4 : ¬ 4 ≤ board.length := by omega
      have h5 : ¬ 5 ≤ board.length := by omega
      simp only [equityAtEachStreetWith, if_pos (Nat.zero_le board.length),
        if_neg h3, if_neg h4, if_neg h5, e1, Except.map]
    refine ⟨by rw [hval]; rfl, ?_⟩
    intro l hl
    rw [hval] at hl
    cases hl
    constructor
    · have h4 : ¬ 4 ≤ board.length := by omega
      have h5 : ¬ 5 ≤ board.length := by omega
      simp [streetRecOf, List.filter, h3, h4, h5]
    · intro hx
      exfalso
      omega

/-- Witness for C8 at hole `[0,1]`, 3-card board `[2,3,4]`, one
opponent. -/
theorem claim8_street_order_witness :
    (equityAtEachStreetWith [0, 1] [2, 3, 4] 1 0 (fun _ d => d)).isOk =
      true ∧
    ∀ l, equityAtEachStreetWith [0, 1] [2, 3, 4] 1 0 (fun _ d => d) =
        Except.ok l →
      l.map (fun sr => (sr.street, sr.board_len)) =
        ([("preflop", 0), ("flop", 3), ("turn", 4), ("river", 5)].filter
          (fun p => decide (p.2 ≤ [2, 3, 4].length))) ∧
      ([2, 3, 4].length = 3 → l.length = 2) :=
  claim8_street_order [0, 1] [2, 3, 4] 1 0 (fun _ d => d) (by decide)
    (by decide) (by decide)
    (by intro a ha hb; simp at ha hb; omega)
    (by decide) (by decide) (by decide)
    (fun _ d => List.Perm.refl d)

end PokerSim
